import Mathlib

/-!
# Verification of the libbsdiff delta engine (`src/patch.rs`, `src/format/linear_diff.rs`)

Shallow embedding of the repository's patch generation / application code.

Conventions of the embedding:
* Bytes are `Nat` values `< 256`; byte buffers and streams are `List Nat`.
* Machine `u64` values are `Nat`; wrapping byte arithmetic is explicit `% 256`.
  (`read_paired_bufs` maintains `p ≤ size`, so its `u64` subtractions never
  wrap; `read_size_from` can underflow `size -= p`, which is modelled as the
  distinguished `panicked` outcome, matching the checked subtraction of the
  Rust build used by the repository's test suite.)
* An `std::io::Read` reader is modelled by `RState`: the bytes it will still
  deliver, plus a *schedule* assigning to every read call the number of bytes
  the reader chooses to return.  A call with request `req` returns
  `min (sched call) (min req remaining)` bytes, so ranging over all schedules
  covers every legal short-read behaviour, and a reader out of data returns 0.
* Loops are embedded as fuel-indexed structural recursions returning `none`
  when the fuel is exhausted; a `some` result is a finished run of the loop.
-/

namespace Bsdiff

/-- An `io::Read` stream: pending bytes plus a short-read schedule.
`sched n` is the number of bytes the reader elects to deliver on its
`n`-th read call (further capped by the request and by the data left). -/
structure RState where
  data : List Nat
  sched : Nat → Nat
  calls : Nat

/-- One `Read::read` call with request `req`: returns the delivered bytes and
the successor reader state. -/
def rread (r : RState) (req : Nat) : List Nat × RState :=
  let n := min (r.sched r.calls) (min req r.data.length)
  (r.data.take n, ⟨r.data.drop n, r.sched, r.calls + 1⟩)

/-- A schedule that always delivers as much as is asked for (the behaviour of
`std::io::Cursor` over an in-memory buffer, used by the repository's tests). -/
def fullSched : Nat → Nat := fun _ => 1000000000

/-- Reader over a byte buffer with full reads (an `io::Cursor`). -/
def cursorR (data : List Nat) : RState := ⟨data, fullSched, 0⟩

/-- Outcome of running embedded fallible/panicking code. -/
inductive Res (α : Type) where
  | panicked : Res α
  | errored : Res α
  | ok : α → Res α
deriving DecidableEq

/-- Little-endian base-256 encoding of `n` into `k` bytes
(the `byteorder::LittleEndian::write_u64` loop, generalised in the width). -/
def leBytes : Nat → Nat → List Nat
  | 0, _ => []
  | k + 1, n => n % 256 :: leBytes k (n / 256)

/-- Little-endian base-256 decoding (`byteorder::LittleEndian::read_u64`). -/
def deLE : List Nat → Nat
  | [] => 0
  | b :: rest => b + 256 * deLE rest

theorem leBytes_length (k n : Nat) : (leBytes k n).length = k := by
  induction k generalizing n with
  | zero => rfl
  | succ k ih => simp [leBytes, ih]

theorem deLE_leBytes (k n : Nat) : deLE (leBytes k n) = n % 256 ^ k := by
  induction k generalizing n with
  | zero => simp [leBytes, deLE, Nat.mod_one]
  | succ k ih =>
    simp only [leBytes, deLE, ih]
    rw [pow_succ', Nat.mod_mul]

/-- The linear-format patch command (`Command` in `src/format/linear_diff.rs`). -/
structure Command where
  old_offset : Nat
  bytewise_add_size : Nat
  extra_append_size : Nat
deriving DecidableEq

namespace Command

/-- The `Command::write_to`: three little-endian u64 fields into 24 bytes. -/
def write_to (c : Command) : List Nat :=
  leBytes 8 c.old_offset ++ leBytes 8 c.bytewise_add_size ++ leBytes 8 c.extra_append_size

/-- Decoding of a filled 24-byte command buffer
(the tail of `Command::read_from`). -/
def decode (buf : List Nat) : Command :=
  { old_offset := deLE (buf.take 8)
    bytewise_add_size := deLE ((buf.drop 8).take 8)
    extra_append_size := deLE ((buf.drop 16).take 8) }

/-- The fill loop of `Command::read_from`: keep reading into `acc` until 24
bytes are present; a read that returns zero bytes yields `none` (treated as
end-of-stream by the source, even mid-command).  Each recursive call has
delivered at least one byte, so fuel `25` can never be exhausted; the
fuel-out branch mirrors the (unreachable) fall-through. -/
def readGo : Nat → RState → List Nat → Option (List Nat) × RState
  | 0, r, acc => (some acc, r)
  | fuel + 1, r, acc =>
    if 24 ≤ acc.length then (some acc, r)
    else
      let (c, r') := rread r (24 - acc.length)
      if c.length = 0 then (none, r')
      else readGo fuel r' (acc ++ c)

/-- The `Command::read_from`: `none` in the first component means
"no more commands" (the `Ok(None)` case). -/
def read_from (r : RState) : Option Command × RState :=
  let (res, r') := readGo 25 r []
  (res.map decode, r')

end Command

/-- Buffer capacity of the merging loops (`[0u8; 1024]` in `src/patch.rs`). -/
def BUFCAP : Nat := 1024

/-- The `read_paired_bufs` (src/patch.rs lines 12-70), fuel-indexed.

The 1024-byte arrays are represented by their filled prefixes `b0`, `b1`
(so `p0 = b0.length`); the post-callback shift of the unconsumed tail to
offset 0 is `List.drop pmin`.  Instead of invoking the callback `f`, the
run records the trace of slice pairs handed to `f`, in order; every use
site folds its own callback over this trace.  `base` is the loop variable
of the source (always zero, kept for faithfulness).  Returns `none` when
the fuel runs out before `size` reaches zero. -/
def pairedRun : Nat → Nat → List Nat → List Nat → RState → RState → Nat →
    Option (List (List Nat × List Nat) × RState × RState)
  | 0, _, _, _, _, _, _ => none
  | fuel + 1, size, b0, b1, r0, r1, base =>
    if size = 0 then some ([], r0, r1)
    else
      let avail := min BUFCAP size
      let (c0, r0') := if b0.length < avail then rread r0 (avail - b0.length) else ([], r0)
      let b0' := b0 ++ c0
      let (c1, r1') := if b1.length < avail then rread r1 (avail - b1.length) else ([], r1)
      let b1' := b1 ++ c1
      let pmin := min b0'.length b1'.length
      let slice0 := (b0'.take pmin).drop base
      let slice1 := (b1'.take pmin).drop base
      let processed := pmin - base
      match pairedRun fuel (size - processed) (b0'.drop pmin) (b1'.drop pmin) r0' r1' 0 with
      | none => none
      | some (rest, ra, rb) => some ((slice0, slice1) :: rest, ra, rb)

/-- The `read_size_from` (src/patch.rs lines 72-94), fuel-indexed.

Transcribed faithfully: the fill position `p` (= `buf.length` here) is
*never* reset after the callback, so the whole filled buffer is handed to
`f` again on the next iteration, and `size -= p` subtracts the full fill
level each time.  `size < buf.length` makes the `u64` subtraction
underflow: `panicked`.  The trace of slices passed to `f` is recorded. -/
def readSizeGo : Nat → Nat → List Nat → Nat → RState →
    Option (Res (List (List Nat) × RState))
  | 0, _, _, _, _ => none
  | fuel + 1, size, buf, base, r =>
    if size = 0 then some (.ok ([], r))
    else
      let avail := min BUFCAP size
      let (c, r') := if buf.length < avail then rread r (avail - buf.length) else ([], r)
      let buf' := buf ++ c
      let slice := buf'.drop base
      if size < buf'.length then some .panicked
      else
        match readSizeGo fuel (size - buf'.length) buf' 0 r' with
        | none => none
        | some .panicked => some .panicked
        | some .errored => some .errored
        | some (.ok (rest, ra)) => some (.ok (slice :: rest, ra))

/-- The `read_size_from` entry point (`p = 0`, `base = 0`). -/
def read_size_from (fuel size : Nat) (r : RState) :
    Option (Res (List (List Nat) × RState)) :=
  readSizeGo fuel size [] 0 r

/-- Length of the longest common prefix of two byte lists. -/
def commonPrefixLen : List Nat → List Nat → Nat
  | a :: as, b :: bs => if a = b then 1 + commonPrefixLen as bs else 0
  | _, _ => 0

/-- Modelled from the spec: `Index::best_match` of the missing `diff` module
(§4.1): the longest prefix of the probe `w` occurring anywhere in `old`,
ties broken by lowest old offset; `(0, 0)` when there is no offset at all. -/
def best_match (old w : List Nat) : Nat × Nat :=
  (List.range old.length).foldl
    (fun best off =>
      let l := commonPrefixLen (old.drop off) w
      if best.2 < l then (off, l) else best)
    (0, 0)

/-- Modelled from the spec: whether a match is long enough to be useful
(§4.3's "minimum-useful-match threshold", numeric value unspecified by the
spec and carried as the parameter `mm`; a zero-length match is never
useful). -/
def goodMatch (mm len : Nat) : Prop := max 1 mm ≤ len

instance (mm len : Nat) : Decidable (goodMatch mm len) := by
  unfold goodMatch; infer_instance

/-- Modelled from the spec: length of the literal run starting at the head of
`rem` — bytes are added one at a time until a sufficiently long match is
found or the input ends (§4.3). -/
def literalRunLen (old : List Nat) (mm : Nat) : List Nat → Nat
  | [] => 0
  | b :: rest =>
    if goodMatch mm (best_match old (b :: rest)).2 then 0
    else 1 + literalRunLen old mm rest

/-- Modelled from the spec: the Match Scanner / `MatchIter` of the missing
`diff` module (§4.3).  Yields `(old_offset, match_length, literal_length)`
triples covering `new` left to right: at each step the best match at the
cursor (zero-length when not useful) followed by the literal run up to the
next useful match.  Fuel-indexed; `new.length + 1` fuel always suffices
since every step consumes at least one byte. -/
def scanGo (old : List Nat) (mm : Nat) : Nat → List Nat → List (Nat × Nat × Nat)
  | 0, _ => []
  | _, [] => []
  | fuel + 1, rem =>
    let m := best_match old rem
    if goodMatch mm m.2 then
      let rem' := rem.drop m.2
      let lit := literalRunLen old mm rem'
      (m.1, m.2, lit) :: scanGo old mm fuel (rem'.drop lit)
    else
      let lit := literalRunLen old mm rem
      (m.1, 0, lit) :: scanGo old mm fuel (rem.drop lit)

/-- Modelled from the spec: the pairs `MatchIter::from(old, new)` yields. -/
def matchPairs (old : List Nat) (mm : Nat) (new : List Nat) : List (Nat × Nat × Nat) :=
  scanGo old mm (new.length + 1) new

/-- Modelled from the spec: `write_delta` of the missing `diff` module —
the byte-wise difference of the matched old and new slices, with
wraparound, consistently inverse to the applier's
`old_byte.wrapping_add(delta_byte)` (§4.6): `new_byte - old_byte mod 256`. -/
def write_delta (oldSlice newSlice : List Nat) : List Nat :=
  List.zipWith (fun o n => (256 + n - o % 256) % 256) oldSlice newSlice

/-- Byte combination performed by the applier's callbacks:
`o[i].wrapping_add(d[i])`. -/
def addByte (o d : Nat) : Nat := (o + d) % 256

/-- The `generate_full_patch` (src/format/linear_diff.rs lines 64-107) with an
infallible writer (a `Vec<u8>`): for each scanner pair, the 24-byte
command, then the delta bytes of the matched region, then the literal
bytes, all concatenated in stream order.  `i` is the cursor into `new`
exactly as in the source.  (The progress `println!` is side-effect only
and not part of the byte stream.) -/
def generateGo (old new : List Nat) : Nat → List (Nat × Nat × Nat) → List Nat
  | _, [] => []
  | i, (off, mlen, llen) :: rest =>
    let cmd : Command :=
      { old_offset := off, bytewise_add_size := mlen, extra_append_size := llen }
    cmd.write_to
      ++ write_delta ((old.drop off).take mlen) ((new.drop i).take mlen)
      ++ ((new.drop (i + mlen)).take llen)
      ++ generateGo old new (i + mlen + llen) rest

/-- The `generate_full_patch` over the spec-modelled `MatchIter`. -/
def generate_full_patch (old : List Nat) (mm : Nat) (new : List Nat) : List Nat :=
  generateGo old new 0 (matchPairs old mm new)

/-- A `Read + Seek` handle over a byte buffer (the `old` input of the
appliers): the full contents, the cursor position, and a short-read
schedule for its `Read` side. -/
structure SeekR where
  data : List Nat
  pos : Nat
  sched : Nat → Nat
  calls : Nat

/-- The `Read` view of a seekable handle: it will deliver the bytes from the
cursor onwards. -/
def seekView (o : SeekR) : RState := ⟨o.data.drop o.pos, o.sched, o.calls⟩

/-- Reabsorb the reader state after some reads: the cursor advanced by
exactly the number of bytes delivered. -/
def seekResync (o : SeekR) (r' : RState) : SeekR :=
  ⟨o.data, o.pos + ((o.data.drop o.pos).length - r'.data.length), o.sched, r'.calls⟩

/-- A seekable cursor over `data` at position 0 with full reads
(`io::Cursor`). -/
def cursorS (data : List Nat) : SeekR := ⟨data, 0, fullSched, 0⟩

/-- The body of `apply_patch`'s per-command work
(src/format/linear_diff.rs lines 114-127): absolute
`seek(SeekFrom::Start(cmd.old_offset))` on the old handle *first*, then the
paired delta merge (old bytes combined with delta bytes from the patch
stream via `wrapping_add`, appended to the output), then the literal copy
from the same patch stream. -/
def applyOneCmd (fuel : Nat) (c : Command) (old : SeekR) (patch : RState)
    (out : List Nat) : Option (Res (SeekR × RState × List Nat)) :=
  let old1 : SeekR := { old with pos := c.old_offset }
  match pairedRun fuel c.bytewise_add_size [] [] (seekView old1) patch 0 with
  | none => none
  | some (pairs, ro, rp) =>
    let old2 := seekResync old1 ro
    let out1 := out ++ (pairs.map (fun pr => List.zipWith addByte pr.1 pr.2)).flatten
    match read_size_from fuel c.extra_append_size rp with
    | none => none
    | some .panicked => some .panicked
    | some .errored => some .errored
    | some (.ok (chunks, rp')) => some (.ok (old2, rp', out1 ++ chunks.flatten))

/-- The command loop of `apply_patch` (src/format/linear_diff.rs 109-130):
read commands until a clean end-of-stream, applying each. -/
def applyPatchGo : Nat → SeekR → RState → List Nat → Option (Res (List Nat))
  | 0, _, _, _ => none
  | fuel + 1, old, patch, out =>
    match Command.read_from patch with
    | (none, _) => some (.ok out)
    | (some c, patch') =>
      match applyOneCmd (fuel + 1) c old patch' out with
      | none => none
      | some .panicked => some .panicked
      | some .errored => some .errored
      | some (.ok (old', patch'', out')) => applyPatchGo fuel old' patch'' out'

/-- The `apply_patch` with in-memory buffers on both sides (the composition the
round-trip property is about, and the harness the repository's own tests
use). -/
def apply_patch (fuel : Nat) (patchBytes old : List Nat) : Option (Res (List Nat)) :=
  applyPatchGo fuel (cursorS old) (cursorR patchBytes) []

/-- The compact-format command (fields as used by `Patcher::apply` in
src/patch.rs; the struct itself lives in the missing `core` module). -/
structure CommandC where
  oldfile_seek_offset : Int
  bytewise_add_size : Nat
  extra_append_size : Nat

/-- The `Patcher` state (src/patch.rs lines 96-101): the three streams and
the output written so far. -/
structure PState where
  delta : RState
  extra : RState
  old : SeekR
  out : List Nat

/-- The `Patcher::append_delta` (src/patch.rs 117-125): paired merge of the old
cursor (at its *current* position) with the delta stream, output bytes
`o.wrapping_add(d)`. -/
def Patcher.append_delta (fuel n : Nat) (st : PState) : Option PState :=
  (pairedRun fuel n [] [] (seekView st.old) st.delta 0).map fun (pairs, ro, rd) =>
    { st with
      old := seekResync st.old ro
      delta := rd
      out := st.out ++ (pairs.map (fun pr => List.zipWith addByte pr.1 pr.2)).flatten }

/-- The `Patcher::append_extra` (src/patch.rs 127-132): literal copy from the
extra stream via `read_size_from`. -/
def Patcher.append_extra (fuel n : Nat) (st : PState) : Option (Res PState) :=
  match read_size_from fuel n st.extra with
  | none => none
  | some .panicked => some .panicked
  | some .errored => some .errored
  | some (.ok (chunks, re)) =>
    some (.ok { st with extra := re, out := st.out ++ chunks.flatten })

/-- The `Patcher::seek_old` (src/patch.rs 134-136): relative
`seek(SeekFrom::Current(size))`; seeking before position 0 is an I/O
error. -/
def Patcher.seek_old (off : Int) (st : PState) : Res PState :=
  let t : Int := (st.old.pos : Int) + off
  if t < 0 then .errored
  else .ok { st with old := { st.old with pos := t.toNat } }

/-- The `Patcher::apply` (src/patch.rs 110-115): delta, then extra, then the
relative seek, in that order. -/
def Patcher.apply (fuel : Nat) (c : CommandC) (st : PState) : Option (Res PState) :=
  match Patcher.append_delta fuel c.bytewise_add_size st with
  | none => none
  | some st1 =>
    match Patcher.append_extra fuel c.extra_append_size st1 with
    | none => none
    | some .panicked => some .panicked
    | some .errored => some .errored
    | some (.ok st2) => some (Patcher.seek_old c.oldfile_seek_offset st2)

/-- The `Patcher::check_written_size` (src/patch.rs 138-141): a stub that always
succeeds — the TODO in the source says it should compare the written size
with the expected one, but it does not. -/
def Patcher.check_written_size (_written _expected : Nat) : Res Unit := .ok ()

/-- The compact-format header carried by `Header` of the missing `core`
module (spec §6: the four logical fields; the magic tag is consumed by
`Header::read`). -/
structure Header where
  compressed_commands_size : Nat
  compressed_delta_size : Nat
  new_file_size : Nat

/-- Modelled from the spec: the magic/format tag of the 32-byte compact
header (§6 leaves the concrete bytes to the implementer). -/
def MAGIC : List Nat := [98, 115, 100, 105, 102, 102, 52, 48]

/-- Modelled from the spec: `Header::read` of the missing `core` module —
parse the fixed 32-byte header: magic tag, then the three `u64` fields
(§6; exact layout implementer's choice, little-endian chosen here as in
the linear codec). -/
def Header.read (bytes : List Nat) : Res Header :=
  if bytes.take 8 = MAGIC then
    .ok ⟨deLE ((bytes.drop 8).take 8), deLE ((bytes.drop 16).take 8),
         deLE ((bytes.drop 24).take 8)⟩
  else .errored

/-- The command loop of compact `apply` (src/patch.rs 170-173). -/
def runCmds (fuel : Nat) : List CommandC → PState → Option (Res PState)
  | [], st => some (.ok st)
  | c :: cs, st =>
    match Patcher.apply fuel c st with
    | none => none
    | some .panicked => some .panicked
    | some .errored => some .errored
    | some (.ok st') => runCmds fuel cs st'

/-- Compact-format `apply` (src/patch.rs lines 144-178).

`decomp` abstracts the out-of-scope `BzDecoder` byte-stream transform and
`decodeCmds` abstracts the missing `core::CommandReader` (returning `none`
for a corrupt command stream).  Faithful to the source: `split_at(32)` and
the two segment `split_at`s *panic* (`.panicked`) when the patch is
shorter than claimed, and the final `check_written_size` is the
always-`Ok` stub. -/
def applyCompact (fuel : Nat) (decomp : List Nat → List Nat)
    (decodeCmds : List Nat → Option (List CommandC))
    (patch : List Nat) (old : SeekR) (deltaSched extraSched : Nat → Nat) :
    Option (Res (List Nat)) :=
  if patch.length < 32 then some .panicked
  else
    let header := patch.take 32
    let body := patch.drop 32
    match Header.read header with
    | .panicked => some .panicked
    | .errored => some .errored
    | .ok h =>
      if body.length < h.compressed_commands_size then some .panicked
      else
        let command_data := body.take h.compressed_commands_size
        let rest := body.drop h.compressed_commands_size
        if rest.length < h.compressed_delta_size then some .panicked
        else
          let delta_data := rest.take h.compressed_delta_size
          let extra_data := rest.drop h.compressed_delta_size
          match decodeCmds (decomp command_data) with
          | none => some .errored
          | some cmds =>
            let st : PState :=
              { delta := ⟨decomp delta_data, deltaSched, 0⟩
                extra := ⟨decomp extra_data, extraSched, 0⟩
                old := old
                out := [] }
            match runCmds fuel cmds st with
            | none => none
            | some .panicked => some .panicked
            | some .errored => some .errored
            | some (.ok st') =>
              match Patcher.check_written_size st'.out.length h.new_file_size with
              | .panicked => some .panicked
              | .errored => some .errored
              | .ok _ => some (.ok st'.out)

/-- A fallible byte sink (`Write`): bytes accepted so far, the number of
`write_all` calls made, and which calls fail.  A failing call writes
nothing. -/
structure WState where
  out : List Nat
  calls : Nat
  failAt : Nat → Bool

/-- One `write_all` call: `false` means the call returned an I/O error. -/
def writeAll (w : WState) (bs : List Nat) : Bool × WState :=
  if w.failAt w.calls then (false, ⟨w.out, w.calls + 1, w.failAt⟩)
  else (true, ⟨w.out ++ bs, w.calls + 1, w.failAt⟩)

/-- The `generate_full_patch` against a fallible writer, transcribing the error
plumbing of src/format/linear_diff.rs 64-107: the command write and
`write_delta` results are propagated with `?`, but the literal-byte
`patch.write_all(&new[extra_begin..extra_end])` on line 99 has *no* `?` —
its result is discarded and the loop continues. -/
def generateFGo (old new : List Nat) : Nat → List (Nat × Nat × Nat) → WState → Res WState
  | _, [], w => .ok w
  | i, (off, mlen, llen) :: rest, w =>
    let cmd : Command :=
      { old_offset := off, bytewise_add_size := mlen, extra_append_size := llen }
    let (ok1, w1) := writeAll w cmd.write_to
    if ok1 = false then .errored
    else
      let (ok2, w2) := writeAll w1 (write_delta ((old.drop off).take mlen) ((new.drop i).take mlen))
      if ok2 = false then .errored
      else
        let (_, w3) := writeAll w2 ((new.drop (i + mlen)).take llen)
        generateFGo old new (i + mlen + llen) rest w3

/-- The `generate_full_patch` with a fallible writer. -/
def generateF (old : List Nat) (mm : Nat) (new : List Nat) (w : WState) : Res WState :=
  generateFGo old new 0 (matchPairs old mm new) w

theorem best_match_nil (w : List Nat) : best_match [] w = (0, 0) := rfl

theorem literalRunLen_nil (mm : Nat) (rem : List Nat) :
    literalRunLen [] mm rem = rem.length := by
  induction rem with
  | nil => rfl
  | cons b rest ih =>
    simp only [literalRunLen, best_match_nil, List.length_cons]
    rw [if_neg, ih]
    · omega
    · simp [goodMatch]

/-- Scanning against an empty old file yields a single all-literal pair
(spec §4.3's "no match ever found" edge case), whatever the threshold. -/
theorem matchPairs_nil (mm : Nat) (new : List Nat) (h : new ≠ []) :
    matchPairs [] mm new = [(0, 0, new.length)] := by
  match new, h with
  | b :: rest, _ =>
    simp only [matchPairs, List.length_cons, scanGo, best_match_nil]
    rw [if_neg (by simp [goodMatch])]
    simp only [literalRunLen_nil, List.length_cons]
    rw [List.drop_of_length_le (by simp)]
    rfl

/-! ## Correctness of `read_paired_bufs` -/

/-- Unfolding of one `read_paired_bufs` iteration (`size ≠ 0`, `base = 0`),
with the two conditional reads abstracted by their outcomes. -/
theorem pairedRun_succ (fuel size : Nat) (b0 b1 : List Nat) (r0 r1 : RState)
    (hsz : size ≠ 0) (c0 : List Nat) (r0' : RState) (c1 : List Nat) (r1' : RState)
    (h0 : (if b0.length < min BUFCAP size then rread r0 (min BUFCAP size - b0.length)
           else ([], r0)) = (c0, r0'))
    (h1 : (if b1.length < min BUFCAP size then rread r1 (min BUFCAP size - b1.length)
           else ([], r1)) = (c1, r1')) :
    pairedRun (fuel + 1) size b0 b1 r0 r1 0 =
      match pairedRun fuel (size - min (b0 ++ c0).length (b1 ++ c1).length)
          ((b0 ++ c0).drop (min (b0 ++ c0).length (b1 ++ c1).length))
          ((b1 ++ c1).drop (min (b0 ++ c0).length (b1 ++ c1).length)) r0' r1' 0 with
      | none => none
      | some (rest, ra, rb) =>
        some (((b0 ++ c0).take (min (b0 ++ c0).length (b1 ++ c1).length),
               (b1 ++ c1).take (min (b0 ++ c0).length (b1 ++ c1).length)) :: rest, ra, rb) := by
  rw [pairedRun, if_neg hsz]
  dsimp only
  rw [h0, h1]
  rfl

/-- Outcome of one conditional buffer top-up. -/
theorem readIf_spec (b : List Nat) (r : RState) (size : Nat) (hb : b.length ≤ size)
    (c : List Nat) (r' : RState)
    (h : (if b.length < min BUFCAP size then rread r (min BUFCAP size - b.length)
          else ([], r)) = (c, r')) :
    b.length + c.length ≤ size ∧ c = r.data.take c.length ∧
    r'.data = r.data.drop c.length ∧ r'.sched = r.sched := by
  by_cases hcond : b.length < min BUFCAP size
  · rw [if_pos hcond] at h
    dsimp only [rread] at h
    injection h with hc hr
    subst hc
    subst hr
    have hn : (min (r.sched r.calls) (min (min BUFCAP size - b.length) r.data.length))
        ≤ r.data.length := by omega
    have hlen : (r.data.take (min (r.sched r.calls)
        (min (min BUFCAP size - b.length) r.data.length))).length
        = min (r.sched r.calls) (min (min BUFCAP size - b.length) r.data.length) := by
      rw [List.length_take]; omega
    rw [hlen]
    refine ⟨by omega, rfl, rfl, rfl⟩
  · rw [if_neg hcond] at h
    injection h with hc hr
    subst hc
    subst hr
    refine ⟨by simpa using hb, by simp, by simp, rfl⟩

/-- Functional correctness of `read_paired_bufs`: any finished run hands the
callback equal-length slice pairs whose concatenations are exactly the
first `size` bytes of each stream, and leaves both readers exactly `size`
bytes further along.  Stated with the loop's buffer contents generalised
(`b0`, `b1` are the filled prefixes carried between iterations). -/
theorem pairedRun_spec (fuel : Nat) :
    ∀ (size : Nat) (b0 b1 : List Nat) (r0 r1 : RState)
      (pairs : List (List Nat × List Nat)) (ra rb : RState),
      b0.length ≤ size → b1.length ≤ size →
      pairedRun fuel size b0 b1 r0 r1 0 = some (pairs, ra, rb) →
      (∀ p ∈ pairs, p.1.length = p.2.length)
      ∧ (pairs.map Prod.fst).flatten = b0 ++ r0.data.take (size - b0.length)
      ∧ (pairs.map Prod.snd).flatten = b1 ++ r1.data.take (size - b1.length)
      ∧ (pairs.map Prod.fst).flatten.length = size
      ∧ (pairs.map Prod.snd).flatten.length = size
      ∧ ra.data = r0.data.drop (size - b0.length)
      ∧ rb.data = r1.data.drop (size - b1.length)
      ∧ ra.sched = r0.sched ∧ rb.sched = r1.sched := by
  induction fuel with
  | zero =>
    intro size b0 b1 r0 r1 pairs ra rb _ _ h
    simp [pairedRun] at h
  | succ fuel ih =>
    intro size b0 b1 r0 r1 pairs ra rb hb0 hb1 h
    by_cases hsz : size = 0
    · subst hsz
      rw [pairedRun, if_pos rfl] at h
      obtain ⟨rfl, rfl, rfl⟩ : ([] : List (List Nat × List Nat)) = pairs ∧ r0 = ra ∧ r1 = rb := by
        simpa using h
      have hb0' : b0 = [] := List.eq_nil_of_length_eq_zero (by omega)
      have hb1' : b1 = [] := List.eq_nil_of_length_eq_zero (by omega)
      subst hb0' hb1'
      simp
    · obtain ⟨c0, r0', h0⟩ : ∃ c r',
          (if b0.length < min BUFCAP size then rread r0 (min BUFCAP size - b0.length)
           else ([], r0)) = (c, r') := ⟨_, _, rfl⟩
      obtain ⟨c1, r1', h1⟩ : ∃ c r',
          (if b1.length < min BUFCAP size then rread r1 (min BUFCAP size - b1.length)
           else ([], r1)) = (c, r') := ⟨_, _, rfl⟩
      rw [pairedRun_succ fuel size b0 b1 r0 r1 hsz c0 r0' c1 r1' h0 h1] at h
      obtain ⟨hs0, hc0, hd0, hsch0⟩ := readIf_spec b0 r0 size hb0 c0 r0' h0
      obtain ⟨hs1, hc1, hd1, hsch1⟩ := readIf_spec b1 r1 size hb1 c1 r1' h1
      cases hrec : pairedRun fuel (size - min (b0 ++ c0).length (b1 ++ c1).length)
          ((b0 ++ c0).drop (min (b0 ++ c0).length (b1 ++ c1).length))
          ((b1 ++ c1).drop (min (b0 ++ c0).length (b1 ++ c1).length)) r0' r1' 0 with
      | none => rw [hrec] at h; simp at h
      | some out =>
        obtain ⟨rest, ra', rb'⟩ := out
        rw [hrec] at h
        simp only [Option.some.injEq, Prod.mk.injEq] at h
        obtain ⟨hpairs, hra, hrb⟩ := h
        subst hpairs
        subst hra
        subst hrb
        have hB0 : (b0 ++ c0).length = b0.length + c0.length := List.length_append _ _
        have hB1 : (b1 ++ c1).length = b1.length + c1.length := List.length_append _ _
        have hB0size : (b0 ++ c0).length ≤ size := by omega
        have hB1size : (b1 ++ c1).length ≤ size := by omega
        have hpm0 : min (b0 ++ c0).length (b1 ++ c1).length ≤ (b0 ++ c0).length :=
          Nat.min_le_left _ _
        have hpm1 : min (b0 ++ c0).length (b1 ++ c1).length ≤ (b1 ++ c1).length :=
          Nat.min_le_right _ _
        have hinv0 : ((b0 ++ c0).drop (min (b0 ++ c0).length (b1 ++ c1).length)).length
            ≤ size - min (b0 ++ c0).length (b1 ++ c1).length := by
          rw [List.length_drop]; omega
        have hinv1 : ((b1 ++ c1).drop (min (b0 ++ c0).length (b1 ++ c1).length)).length
            ≤ size - min (b0 ++ c0).length (b1 ++ c1).length := by
          rw [List.length_drop]; omega
        obtain ⟨ih1, ih2, ih3, ih4, ih5, ih6, ih7, ih8, ih9⟩ :=
          ih (size - min (b0 ++ c0).length (b1 ++ c1).length)
            ((b0 ++ c0).drop (min (b0 ++ c0).length (b1 ++ c1).length))
            ((b1 ++ c1).drop (min (b0 ++ c0).length (b1 ++ c1).length))
            r0' r1' rest ra' rb' hinv0 hinv1 hrec
        have hdlen0 : ((b0 ++ c0).drop (min (b0 ++ c0).length (b1 ++ c1).length)).length
            = (b0 ++ c0).length - min (b0 ++ c0).length (b1 ++ c1).length :=
          List.length_drop _ _
        have hdlen1 : ((b1 ++ c1).drop (min (b0 ++ c0).length (b1 ++ c1).length)).length
            = (b1 ++ c1).length - min (b0 ++ c0).length (b1 ++ c1).length :=
          List.length_drop _ _
        have hsub0 : size - min (b0 ++ c0).length (b1 ++ c1).length
            - ((b0 ++ c0).drop (min (b0 ++ c0).length (b1 ++ c1).length)).length
            = size - (b0 ++ c0).length := by omega
        have hsub1 : size - min (b0 ++ c0).length (b1 ++ c1).length
            - ((b1 ++ c1).drop (min (b0 ++ c0).length (b1 ++ c1).length)).length
            = size - (b1 ++ c1).length := by omega
        have htl0 : ((b0 ++ c0).take (min (b0 ++ c0).length (b1 ++ c1).length)).length
            = min (b0 ++ c0).length (b1 ++ c1).length := by
          rw [List.length_take]; omega
        have htl1 : ((b1 ++ c1).take (min (b0 ++ c0).length (b1 ++ c1).length)).length
            = min (b0 ++ c0).length (b1 ++ c1).length := by
          rw [List.length_take]; omega
        refine ⟨?_, ?_, ?_, ?_, ?_, ?_, ?_, ?_, ?_⟩
        · intro p hp
          rcases List.mem_cons.mp hp with hhd | htl
          · subst hhd; rw [htl0, htl1]
          · exact ih1 p htl
        · simp only [List.map_cons, List.flatten_cons, ih2, hsub0]
          rw [← List.append_assoc, List.take_append_drop]
          have hlen_eq : size - (b0 ++ c0).length = size - b0.length - c0.length := by omega
          rw [hlen_eq, hd0, List.append_assoc]
          congr 1
          have hsplit : size - b0.length = c0.length + (size - b0.length - c0.length) := by
            omega
          rw [hsplit, List.take_add, ← hc0, Nat.add_sub_cancel_left]
        · simp only [List.map_cons, List.flatten_cons, ih3, hsub1]
          rw [← List.append_assoc, List.take_append_drop]
          have hlen_eq : size - (b1 ++ c1).length = size - b1.length - c1.length := by omega
          rw [hlen_eq, hd1, List.append_assoc]
          congr 1
          have hsplit : size - b1.length = c1.length + (size - b1.length - c1.length) := by
            omega
          rw [hsplit, List.take_add, ← hc1, Nat.add_sub_cancel_left]
        · simp only [List.map_cons, List.flatten_cons]
          have happ := List.length_append
            ((b0 ++ c0).take (min (b0 ++ c0).length (b1 ++ c1).length))
            ((List.map Prod.fst rest).flatten)
          omega
        · simp only [List.map_cons, List.flatten_cons]
          have happ := List.length_append
            ((b1 ++ c1).take (min (b0 ++ c0).length (b1 ++ c1).length))
            ((List.map Prod.snd rest).flatten)
          omega
        · rw [ih6, hsub0, hd0, List.drop_drop]
          have : c0.length + (size - (b0 ++ c0).length) = size - b0.length := by omega
          rw [this]
        · rw [ih7, hsub1, hd1, List.drop_drop]
          have : c1.length + (size - (b1 ++ c1).length) = size - b1.length := by omega
          rw [this]
        · rw [ih8, hsch0]
        · rw [ih9, hsch1]

/-- C2: for every declared `size` and every short-read schedule of the two
input streams, any finished run of `read_paired_bufs` invokes its callback
only on equal-length slice pairs, in order, whose concatenations are
exactly the first `size` bytes of each stream — every byte exactly once,
none skipped or duplicated (the concatenation equals the `size`-prefix and
has length `size`). -/
theorem C2_read_paired_bufs_exact (fuel size : Nat) (r0 r1 : RState)
    (pairs : List (List Nat × List Nat)) (ra rb : RState)
    (h : pairedRun fuel size [] [] r0 r1 0 = some (pairs, ra, rb)) :
    (∀ p ∈ pairs, p.1.length = p.2.length)
    ∧ (pairs.map Prod.fst).flatten = r0.data.take size
    ∧ (pairs.map Prod.snd).flatten = r1.data.take size
    ∧ (pairs.map Prod.fst).flatten.length = size
    ∧ (pairs.map Prod.snd).flatten.length = size := by
  obtain ⟨h1, h2, h3, h4, h5, _⟩ :=
    pairedRun_spec fuel size [] [] r0 r1 pairs ra rb (by simp) (by simp) h
  refine ⟨h1, ?_, ?_, h4, h5⟩
  · simpa using h2
  · simpa using h3

/-- A short-read schedule delivering two bytes on the first call and full
reads afterwards (used by concrete witnesses). -/
def schedTwoThenFull : Nat → Nat := fun i => if i = 0 then 2 else 1000000000

theorem C2_read_paired_bufs_exact_witness :
    pairedRun 10 3 [] [] ⟨[1, 2, 3, 9], schedTwoThenFull, 0⟩ (cursorR [4, 5, 6]) 0
      = some ([([1, 2], [4, 5]), ([3], [6])],
              ⟨[9], schedTwoThenFull, 2⟩, ⟨[], fullSched, 1⟩)
    ∧ ((∀ p ∈ [([1, 2], [4, 5]), ([3], [6])], (p : List Nat × List Nat).1.length = p.2.length)
       ∧ ([([1, 2], [4, 5]), ([3], [6])].map Prod.fst).flatten = List.take 3 [1, 2, 3, 9]
       ∧ ([([1, 2], [4, 5]), ([3], [6])].map Prod.snd).flatten = List.take 3 [4, 5, 6]
       ∧ ([([1, 2], [4, 5]), ([3], [6])].map Prod.fst).flatten.length = 3
       ∧ ([([1, 2], [4, 5]), ([3], [6])].map Prod.snd).flatten.length = 3) :=
  ⟨rfl, C2_read_paired_bufs_exact 10 3 ⟨[1, 2, 3, 9], schedTwoThenFull, 0⟩ (cursorR [4, 5, 6])
    [([1, 2], [4, 5]), ([3], [6])] ⟨[9], schedTwoThenFull, 2⟩ ⟨[], fullSched, 1⟩ rfl⟩

/-- Callback results distribute over the recorded trace: mapping a byte-wise
combiner over equal-length slice pairs and flattening is the byte-wise
combination of the flattened sides. -/
theorem flatten_map_zipWith (f : Nat → Nat → Nat) :
    ∀ (pairs : List (List Nat × List Nat)),
      (∀ p ∈ pairs, p.1.length = p.2.length) →
      (pairs.map (fun pr => List.zipWith f pr.1 pr.2)).flatten
        = List.zipWith f (pairs.map Prod.fst).flatten (pairs.map Prod.snd).flatten := by
  intro pairs
  induction pairs with
  | nil => intro _; simp
  | cons p rest ih =>
    intro h
    simp only [List.map_cons, List.flatten_cons]
    rw [List.zipWith_append f p.1 _ p.2 _ (h p (List.mem_cons_self _ _))]
    rw [ih (fun q hq => h q (List.mem_cons_of_mem _ hq))]

/-- Characterization of a finished `Patcher::append_delta` run (helper). -/
theorem appendDelta_spec (fuel n : Nat) (st st' : PState)
    (h : Patcher.append_delta fuel n st = some st') :
    st'.out = st.out ++ List.zipWith addByte ((st.old.data.drop st.old.pos).take n)
        (st.delta.data.take n)
    ∧ st'.out.length = st.out.length + n
    ∧ st'.old.pos = st.old.pos + n
    ∧ st'.old.data = st.old.data
    ∧ st'.delta.data = st.delta.data.drop n := by
  unfold Patcher.append_delta at h
  cases hrun : pairedRun fuel n [] [] (seekView st.old) st.delta 0 with
  | none => rw [hrun] at h; simp at h
  | some trip =>
    obtain ⟨pairs, ro, rd⟩ := trip
    rw [hrun] at h
    simp only [Option.map_some', Option.some.injEq] at h
    subst h
    obtain ⟨h1, h2, h3, h4, h5, h6, h7, h8, h9⟩ :=
      pairedRun_spec fuel n [] [] (seekView st.old) st.delta pairs ro rd
        (by simp) (by simp) hrun
    simp only [List.nil_append, List.length_nil, Nat.sub_zero, seekView] at h2 h3 h6 h7
    have hlen : n ≤ (st.old.data.drop st.old.pos).length := by
      have := congrArg List.length h2
      rw [List.length_take] at this
      omega
    refine ⟨?_, ?_, ?_, rfl, ?_⟩
    · show st.out ++ (pairs.map (fun pr => List.zipWith addByte pr.1 pr.2)).flatten = _
      rw [flatten_map_zipWith addByte pairs h1, h2, h3]
    · show (st.out ++ (pairs.map (fun pr => List.zipWith addByte pr.1 pr.2)).flatten).length = _
      rw [List.length_append, flatten_map_zipWith addByte pairs h1, List.length_zipWith]
      omega
    · show st.old.pos + ((st.old.data.drop st.old.pos).length - ro.data.length) = _
      have e1 : ro.data.length = (st.old.data.drop st.old.pos).length - n := by
        rw [h6, List.length_drop]
      omega
    · exact h7

/-- C6: any finished `ApplyDelta` step writes exactly `n` bytes, the `k`-th
being `(old_byte_k + delta_byte_k) mod 256` for the `k`-th bytes taken in
lockstep from the old-file cursor (at its current position) and the delta
stream — for every pacing (schedule) of the two readers; the old cursor
ends exactly `n` bytes further and the delta stream loses exactly its
first `n` bytes. -/
theorem C6_append_delta (fuel n : Nat) (st st' : PState)
    (h : Patcher.append_delta fuel n st = some st') :
    st'.out = st.out ++ List.zipWith addByte ((st.old.data.drop st.old.pos).take n)
        (st.delta.data.take n)
    ∧ st'.out.length = st.out.length + n
    ∧ st'.old.pos = st.old.pos + n
    ∧ st'.old.data = st.old.data
    ∧ st'.delta.data = st.delta.data.drop n :=
  appendDelta_spec fuel n st st' h

theorem C6_append_delta_witness :
    Patcher.append_delta 10 2
        ⟨⟨[5, 6, 200], fullSched, 0⟩, cursorR [], ⟨[10, 20, 30, 40], 1, fullSched, 0⟩, [7]⟩
      = some ⟨⟨[200], fullSched, 1⟩, cursorR [], ⟨[10, 20, 30, 40], 3, fullSched, 1⟩, [7, 25, 36]⟩
    ∧ ([7, 25, 36] : List Nat)
        = [7] ++ List.zipWith addByte ((List.drop 1 [10, 20, 30, 40]).take 2)
            (List.take 2 [5, 6, 200])
    ∧ ([7, 25, 36] : List Nat).length = ([7] : List Nat).length + 2 := by
  refine ⟨rfl, ?_, ?_⟩
  · exact (C6_append_delta 10 2
      ⟨⟨[5, 6, 200], fullSched, 0⟩, cursorR [], ⟨[10, 20, 30, 40], 1, fullSched, 0⟩, [7]⟩
      ⟨⟨[200], fullSched, 1⟩, cursorR [], ⟨[10, 20, 30, 40], 3, fullSched, 1⟩, [7, 25, 36]⟩
      rfl).1
  · exact (C6_append_delta 10 2
      ⟨⟨[5, 6, 200], fullSched, 0⟩, cursorR [], ⟨[10, 20, 30, 40], 1, fullSched, 0⟩, [7]⟩
      ⟨⟨[200], fullSched, 1⟩, cursorR [], ⟨[10, 20, 30, 40], 3, fullSched, 1⟩, [7, 25, 36]⟩
      rfl).2.1

/-- Characterization of a finished `Patcher::append_extra` run (helper):
the output grows by some literal chunks and the old cursor and delta
stream are untouched. -/
theorem appendExtra_spec (fuel n : Nat) (st st' : PState)
    (h : Patcher.append_extra fuel n st = some (.ok st')) :
    (∃ chunks : List (List Nat), st'.out = st.out ++ chunks.flatten)
    ∧ st'.old = st.old ∧ st'.delta = st.delta := by
  unfold Patcher.append_extra at h
  cases hrsf : read_size_from fuel n st.extra with
  | none => rw [hrsf] at h; simp at h
  | some res =>
    cases res with
    | panicked => rw [hrsf] at h; simp at h
    | errored => rw [hrsf] at h; simp at h
    | ok pr =>
      obtain ⟨chunks, re⟩ := pr
      rw [hrsf] at h
      simp only [Option.some.injEq, Res.ok.injEq] at h
      subst h
      exact ⟨⟨chunks, rfl⟩, rfl, rfl⟩

/-- Characterization of one finished linear-applier command
(the loop body of `apply_patch`, helper): the delta bytes are combined
with old bytes taken from the *absolute* offset `c.old_offset` (whatever
the incoming cursor position was — the seek happens first), literal
chunks follow, and the old cursor ends at `c.old_offset + match_length`. -/
theorem applyOneCmd_spec (fuel : Nat) (c : Command) (old : SeekR) (patch : RState)
    (out : List Nat) (old' : SeekR) (patch' : RState) (out' : List Nat)
    (h : applyOneCmd fuel c old patch out = some (.ok (old', patch', out'))) :
    (∃ litChunks : List (List Nat),
      out' = out ++ List.zipWith addByte
          ((old.data.drop c.old_offset).take c.bytewise_add_size)
          (patch.data.take c.bytewise_add_size) ++ litChunks.flatten)
    ∧ old'.pos = c.old_offset + c.bytewise_add_size
    ∧ old'.data = old.data := by
  unfold applyOneCmd at h
  dsimp only at h
  cases hrun : pairedRun fuel c.bytewise_add_size [] []
      (seekView { old with pos := c.old_offset }) patch 0 with
  | none => rw [hrun] at h; simp at h
  | some trip =>
    obtain ⟨pairs, ro, rp⟩ := trip
    rw [hrun] at h
    dsimp only at h
    cases hrsf : read_size_from fuel c.extra_append_size rp with
    | none => rw [hrsf] at h; simp at h
    | some res =>
      cases res with
      | panicked => rw [hrsf] at h; simp at h
      | errored => rw [hrsf] at h; simp at h
      | ok pr =>
        obtain ⟨chunks, rp2⟩ := pr
        rw [hrsf] at h
        simp only [Option.some.injEq, Res.ok.injEq, Prod.mk.injEq] at h
        obtain ⟨ho, hp, hout⟩ := h
        obtain ⟨h1, h2, h3, h4, h5, h6, h7, h8, h9⟩ :=
          pairedRun_spec fuel c.bytewise_add_size [] []
            (seekView { old with pos := c.old_offset }) patch pairs ro rp
            (by simp) (by simp) hrun
        simp only [List.nil_append, List.length_nil, Nat.sub_zero, seekView] at h2 h3 h6 h7
        have hlen : c.bytewise_add_size ≤ (old.data.drop c.old_offset).length := by
          have := congrArg List.length h2
          rw [List.length_take] at this
          omega
        refine ⟨⟨chunks, ?_⟩, ?_, ?_⟩
        · rw [← hout]
          rw [flatten_map_zipWith addByte pairs h1, h2, h3]
        · rw [← ho]
          show c.old_offset + ((old.data.drop c.old_offset).length - ro.data.length) = _
          have e1 : ro.data.length = (old.data.drop c.old_offset).length
              - c.bytewise_add_size := by
            rw [h6, List.length_drop]
          omega
        · rw [← ho]
          rfl

/-- Characterization of one finished compact-applier command
(`Patcher::apply`, helper): the delta bytes are combined with old bytes
taken from the *current* cursor position (no seek first), literals follow,
and only afterwards the cursor moves by the signed relative offset from
the post-delta position. -/
theorem patcherApply_spec (fuel : Nat) (c : CommandC) (st st' : PState)
    (h : Patcher.apply fuel c st = some (.ok st')) :
    (∃ litChunks : List (List Nat),
      st'.out = st.out ++ List.zipWith addByte
          ((st.old.data.drop st.old.pos).take c.bytewise_add_size)
          (st.delta.data.take c.bytewise_add_size) ++ litChunks.flatten)
    ∧ (st'.old.pos : Int)
        = (st.old.pos : Int) + c.bytewise_add_size + c.oldfile_seek_offset
    ∧ st'.old.data = st.old.data := by
  unfold Patcher.apply at h
  cases had : Patcher.append_delta fuel c.bytewise_add_size st with
  | none => rw [had] at h; simp at h
  | some st1 =>
    rw [had] at h
    dsimp only at h
    cases hae : Patcher.append_extra fuel c.extra_append_size st1 with
    | none => rw [hae] at h; simp at h
    | some res =>
      cases res with
      | panicked => rw [hae] at h; simp at h
      | errored => rw [hae] at h; simp at h
      | ok st2 =>
        rw [hae] at h
        simp only [Option.some.injEq] at h
        obtain ⟨hd1, hd2, hd3, hd4, hd5⟩ :=
          appendDelta_spec fuel c.bytewise_add_size st st1 had
        obtain ⟨⟨chunks, he1⟩, he2, he3⟩ :=
          appendExtra_spec fuel c.extra_append_size st1 st2 hae
        unfold Patcher.seek_old at h
        dsimp only at h
        by_cases hneg : ((st2.old.pos : Int) + c.oldfile_seek_offset < 0)
        · rw [if_pos hneg] at h; simp at h
        · rw [if_neg hneg] at h
          simp only [Res.ok.injEq] at h
          subst h
          refine ⟨⟨chunks, ?_⟩, ?_, ?_⟩
          · show st2.out = _
            rw [he1, hd1, List.append_assoc]
          · show (((st2.old.pos : Int) + c.oldfile_seek_offset).toNat : Int) = _
            rw [Int.toNat_of_nonneg (by omega)]
            rw [he2, hd3]
            push_cast
            ring
          · show st2.old.data = _
            rw [he2, hd4]

/-- C7: per decoded command, the linear applier seeks the old cursor to the
absolute `old_offset` *before* combining delta and literal bytes (the
delta's old bytes come from `old_offset` regardless of the incoming
cursor, which ends at `old_offset + match_length`); the compact applier
combines delta bytes from the *current* cursor position, then literals,
and only then seeks relatively: its final cursor is
`incoming + match_length + seek_offset`. -/
theorem C7_seek_order :
    (∀ (fuel : Nat) (c : Command) (old : SeekR) (patch : RState) (out : List Nat)
        (old' : SeekR) (patch' : RState) (out' : List Nat),
      applyOneCmd fuel c old patch out = some (.ok (old', patch', out')) →
      (∃ litChunks : List (List Nat),
        out' = out ++ List.zipWith addByte
            ((old.data.drop c.old_offset).take c.bytewise_add_size)
            (patch.data.take c.bytewise_add_size) ++ litChunks.flatten)
      ∧ old'.pos = c.old_offset + c.bytewise_add_size
      ∧ old'.data = old.data)
    ∧ (∀ (fuel : Nat) (c : CommandC) (st st' : PState),
      Patcher.apply fuel c st = some (.ok st') →
      (∃ litChunks : List (List Nat),
        st'.out = st.out ++ List.zipWith addByte
            ((st.old.data.drop st.old.pos).take c.bytewise_add_size)
            (st.delta.data.take c.bytewise_add_size) ++ litChunks.flatten)
      ∧ (st'.old.pos : Int)
          = (st.old.pos : Int) + c.bytewise_add_size + c.oldfile_seek_offset
      ∧ st'.old.data = st.old.data) :=
  ⟨fun fuel c old patch out old' patch' out' h =>
      applyOneCmd_spec fuel c old patch out old' patch' out' h,
   fun fuel c st st' h => patcherApply_spec fuel c st st' h⟩

theorem C7_seek_order_witness :
    ((∃ litChunks : List (List Nat),
        [25, 36, 9] = ([] : List Nat) ++ List.zipWith addByte
            ((List.drop 1 [10, 20, 30, 40]).take 2) (List.take 2 [5, 6, 9])
          ++ litChunks.flatten)
      ∧ (3 : Nat) = 1 + 2)
    ∧ ((∃ litChunks : List (List Nat),
        [25, 7] = ([] : List Nat) ++ List.zipWith addByte
            ((List.drop 1 [10, 20]).take 1) (List.take 1 [5]) ++ litChunks.flatten)
      ∧ ((0 : Nat) : Int) = ((1 : Nat) : Int) + 1 + (-2)) := by
  have hlin := C7_seek_order.1 10 ⟨1, 2, 1⟩ ⟨[10, 20, 30, 40], 3, fullSched, 0⟩
    (cursorR [5, 6, 9]) [] ⟨[10, 20, 30, 40], 3, fullSched, 1⟩ ⟨[], fullSched, 2⟩
    [25, 36, 9] rfl
  have hcom := C7_seek_order.2 10 ⟨-2, 1, 1⟩
    ⟨cursorR [5], cursorR [7], ⟨[10, 20], 1, fullSched, 0⟩, []⟩
    ⟨⟨[], fullSched, 1⟩, ⟨[], fullSched, 1⟩, ⟨[10, 20], 0, fullSched, 1⟩, [25, 7]⟩ (by rfl)
  exact ⟨⟨hlin.1, hlin.2.1⟩, ⟨hcom.1, hcom.2.1⟩⟩



/-! ## C4: end-of-stream handling of `Command::read_from` -/

/-- Unfolding of one `Command::read_from` fill-loop iteration (helper). -/
theorem readGo_succ (fuel : Nat) (r : RState) (acc : List Nat)
    (h : ¬ 24 ≤ acc.length) (c : List Nat) (r' : RState)
    (hc : rread r (24 - acc.length) = (c, r')) :
    Command.readGo (fuel + 1) r acc =
      if c.length = 0 then (none, r') else Command.readGo fuel r' (acc ++ c) := by
  rw [Command.readGo, if_neg h]
  dsimp only
  rw [hc]

/-- A schedule delivering `k` bytes on the first call and reporting
end-of-stream (zero bytes) from then on. -/
def schedKThenZero (k : Nat) : Nat → Nat := fun i => if i = 0 then k else 0

/-- C4 (amended): `Command::read_from` reports "no more commands" (`None`)
whenever the underlying stream returns a zero-byte read before all 24
command bytes have accumulated — at a command boundary (`k = 0`) and
mid-command (`0 < k < 24`) alike; the mid-command case is *not* surfaced
as an error. -/
theorem C4_read_from_zero_read (data : List Nat) (k : Nat) (hk : k < 24)
    (hd : k ≤ data.length) :
    (Command.read_from ⟨data, schedKThenZero k, 0⟩).1 = none := by
  have hN : min (schedKThenZero k 0) (min (24 - ([] : List Nat).length) data.length)
      = k := by
    rw [show schedKThenZero k 0 = k from rfl]
    simp only [List.length_nil, Nat.sub_zero]
    omega
  have e1 : rread ⟨data, schedKThenZero k, 0⟩ (24 - ([] : List Nat).length)
      = (data.take k, ⟨data.drop k, schedKThenZero k, 1⟩) := by
    unfold rread
    dsimp only
    rw [hN]
  have hlen : (data.take k).length = k := by rw [List.length_take]; omega
  unfold Command.read_from
  dsimp only
  rw [show (25 : Nat) = 24 + 1 from rfl]
  rw [readGo_succ 24 _ [] (by simp) _ _ e1]
  by_cases hk0 : k = 0
  · subst hk0
    rw [if_pos (by simp)]
    rfl
  · rw [if_neg (by omega)]
    have e2 : rread ⟨data.drop k, schedKThenZero k, 1⟩ (24 - ([] ++ data.take k).length)
        = ([], ⟨data.drop k, schedKThenZero k, 2⟩) := by
      unfold rread
      dsimp only
      simp [schedKThenZero]
    rw [show (24 : Nat) = 23 + 1 from rfl]
    rw [readGo_succ 23 _ ([] ++ data.take k) (by simp [hlen]; omega) _ _ e2]
    rfl

theorem C4_read_from_zero_read_witness :
    0 < 5 ∧ 5 < 24 ∧
      (Command.read_from ⟨List.range 24, schedKThenZero 5, 0⟩).1 = none :=
  ⟨by decide, by decide,
    C4_read_from_zero_read (List.range 24) 5 (by decide) (by decide)⟩

/-- C4 counterexample: a stream that delivers one command byte and then a
zero-byte read makes `Command::read_from` return clean end-of-stream
(`None`) — not an error — even though a byte of the current command had
already been read, contradicting the claim's "surfaced as an error, never
as a clean end-of-stream". -/
theorem C4_counterexample :
    (rread ⟨List.range 24, schedKThenZero 1, 0⟩ 24).1.length = 1
    ∧ (Command.read_from ⟨List.range 24, schedKThenZero 1, 0⟩).1 = none := by
  constructor
  · rfl
  · rfl

/-! ## C8: the linear wire format -/

theorem write_to_length (c : Command) : (Command.write_to c).length = 24 := by
  simp [Command.write_to, leBytes_length]

/-- LE decoding inverts LE encoding on in-range `u64` values (helper). -/
theorem decode_write_to (c : Command) (h1 : c.old_offset < 2 ^ 64)
    (h2 : c.bytewise_add_size < 2 ^ 64) (h3 : c.extra_append_size < 2 ^ 64) :
    Command.decode (Command.write_to c) = c := by
  have la : (leBytes 8 c.old_offset).length = 8 := leBytes_length _ _
  have lb : (leBytes 8 c.bytewise_add_size).length = 8 := leBytes_length _ _
  unfold Command.decode Command.write_to
  rw [List.drop_left' (show (leBytes 8 c.old_offset ++ leBytes 8 c.bytewise_add_size).length
      = 16 by rw [List.length_append, la, lb])]
  rw [show List.take 8 (leBytes 8 c.extra_append_size) = leBytes 8 c.extra_append_size
      from List.take_of_length_le (by simp [leBytes_length])]
  rw [List.append_assoc]
  rw [List.take_left' la, List.drop_left' la, List.take_left' lb]
  rw [deLE_leBytes, deLE_leBytes, deLE_leBytes]
  have e1 : c.old_offset % 256 ^ 8 = c.old_offset := Nat.mod_eq_of_lt (by
    have : (256 : Nat) ^ 8 = 2 ^ 64 := by norm_num
    omega)
  have e2 : c.bytewise_add_size % 256 ^ 8 = c.bytewise_add_size := Nat.mod_eq_of_lt (by
    have : (256 : Nat) ^ 8 = 2 ^ 64 := by norm_num
    omega)
  have e3 : c.extra_append_size % 256 ^ 8 = c.extra_append_size := Nat.mod_eq_of_lt (by
    have : (256 : Nat) ^ 8 = 2 ^ 64 := by norm_num
    omega)
  rw [e1, e2, e3]

/-- The `Command::read_from` over a cursor holding an encoded command consumes
exactly its 24 bytes and decodes it back (helper). -/
theorem read_from_write_to (c : Command) (rest : List Nat)
    (h1 : c.old_offset < 2 ^ 64) (h2 : c.bytewise_add_size < 2 ^ 64)
    (h3 : c.extra_append_size < 2 ^ 64) :
    Command.read_from (cursorR (Command.write_to c ++ rest))
      = (some c, ⟨rest, fullSched, 1⟩) := by
  have hw : (Command.write_to c).length = 24 := write_to_length c
  have e1 : rread (cursorR (Command.write_to c ++ rest)) (24 - ([] : List Nat).length)
      = (Command.write_to c, ⟨rest, fullSched, 1⟩) := by
    unfold rread cursorR
    dsimp only
    have hN : min (fullSched 0) (min (24 - ([] : List Nat).length)
        (Command.write_to c ++ rest).length) = 24 := by
      rw [show fullSched 0 = 1000000000 from rfl]
      rw [List.length_append, hw]
      simp only [List.length_nil, Nat.sub_zero]
      omega
    rw [hN, List.take_left' hw, List.drop_left' hw]
  unfold Command.read_from
  dsimp only
  rw [show (25 : Nat) = 24 + 1 from rfl]
  rw [readGo_succ 24 _ [] (by simp) _ _ e1]
  rw [if_neg (by omega)]
  rw [show (24 : Nat) = 23 + 1 from rfl]
  rw [Command.readGo, if_pos (by simp [hw])]
  simp only [List.nil_append, Option.map_some']
  rw [decode_write_to c h1 h2 h3]

/-- The linear patch layout as §6 words it: each record is the 24-byte
command immediately followed by the match-length difference bytes, then
the literal-length literal bytes; records are concatenated in order
(defined from the spec's wording, to be compared with the source's
`generate_full_patch`). -/
def specRecord (old new : List Nat) (i : Nat) (p : Nat × Nat × Nat) : List Nat :=
  (Command.mk p.1 p.2.1 p.2.2).write_to
    ++ write_delta ((old.drop p.1).take p.2.1) ((new.drop i).take p.2.1)
    ++ (new.drop (i + p.2.1)).take p.2.2

/-- Concatenated spec-worded records with the running cursor into `new`. -/
def specLayout (old new : List Nat) : Nat → List (Nat × Nat × Nat) → List Nat
  | _, [] => []
  | i, p :: rest => specRecord old new i p ++ specLayout old new (i + p.2.1 + p.2.2) rest

theorem generateGo_eq_specLayout (old new : List Nat) :
    ∀ (pairs : List (Nat × Nat × Nat)) (i : Nat),
      generateGo old new i pairs = specLayout old new i pairs := by
  intro pairs
  induction pairs with
  | nil => intro i; rfl
  | cons p rest ih =>
    intro i
    obtain ⟨off, mlen, llen⟩ := p
    simp only [generateGo, specLayout, specRecord, ih, List.append_assoc, Nat.add_assoc]

/-- C8: every linear command serializes to exactly 24 bytes — the three
fields as little-endian u64 in order `old_offset`, `bytewise_add_size`,
`extra_append_size` — decoding a written command returns an equal command
(consuming exactly its bytes), end of stream at a boundary means end of
patch, and the generator emits each command immediately followed by its
difference bytes then its literal bytes. -/
theorem C8_linear_wire_format :
    (∀ c : Command, (Command.write_to c).length = 24)
    ∧ (∀ c : Command, Command.write_to c
        = leBytes 8 c.old_offset ++ leBytes 8 c.bytewise_add_size
          ++ leBytes 8 c.extra_append_size)
    ∧ (∀ (c : Command) (rest : List Nat),
        c.old_offset < 2 ^ 64 → c.bytewise_add_size < 2 ^ 64 →
        c.extra_append_size < 2 ^ 64 →
        Command.read_from (cursorR (Command.write_to c ++ rest))
          = (some c, ⟨rest, fullSched, 1⟩))
    ∧ (Command.read_from (cursorR [])).1 = none
    ∧ (∀ (old : List Nat) (mm : Nat) (new : List Nat),
        generate_full_patch old mm new = specLayout old new 0 (matchPairs old mm new)) :=
  ⟨write_to_length, fun _ => rfl,
   fun c rest h1 h2 h3 => read_from_write_to c rest h1 h2 h3,
   rfl,
   fun old mm new => generateGo_eq_specLayout old new (matchPairs old mm new) 0⟩

theorem C8_linear_wire_format_witness :
    (5 : Nat) < 2 ^ 64 ∧ (1000000 : Nat) < 2 ^ 64 ∧ (2 : Nat) < 2 ^ 64 ∧
    Command.read_from (cursorR (Command.write_to ⟨5, 1000000, 2⟩ ++ [9, 9]))
      = (some ⟨5, 1000000, 2⟩, ⟨[9, 9], fullSched, 1⟩) :=
  ⟨by norm_num, by norm_num, by norm_num,
   C8_linear_wire_format.2.2.1 ⟨5, 1000000, 2⟩ [9, 9]
     (by norm_num) (by norm_num) (by norm_num)⟩

/-! ## C3, C5, C9, C10: defects around short reads, malformed patches,
dropped write errors -/

/-- A short-read schedule delivering one byte on the first call and full
reads afterwards. -/
def schedOneThenFull : Nat → Nat := fun i => if i = 0 then 1 else 1000000000

/-- C3: `ApplyLiteral` (`append_extra` via `read_size_from`) does *not*
copy the first `literal_length` bytes once a short read occurs: with
`literal_length = 2`, literal stream `[5, 7]` and a first read returning
one byte, the applier writes `[5, 5]` — the first byte twice — and never
reads byte `7` (the replay defect of `read_size_from`, which forgets to
reset its fill position). -/
theorem C3_literal_duplication :
    Patcher.append_extra 10 2 ⟨cursorR [], ⟨[5, 7], schedOneThenFull, 0⟩, cursorS [], []⟩
      = some (.ok ⟨cursorR [], ⟨[7], schedOneThenFull, 1⟩, cursorS [], [5, 5]⟩)
    ∧ ([5, 5] : List Nat) ≠ List.take 2 [5, 7] :=
  ⟨rfl, by decide⟩

/-- C5: the compact `apply` *panics* (slice `split_at(32)` out of range)
on a patch shorter than the 32-byte header instead of returning a
corrupt-patch error, and `check_written_size` accepts every written size
(the TODO stub), so a wrong-sized output is never reported. -/
theorem C5_compact_apply_malformed :
    (∀ (fuel : Nat) (decomp : List Nat → List Nat)
        (decodeCmds : List Nat → Option (List CommandC)) (old : SeekR)
        (ds es : Nat → Nat),
      applyCompact fuel decomp decodeCmds [] old ds es = some .panicked)
    ∧ (∀ written expected : Nat, Patcher.check_written_size written expected = .ok ()) :=
  ⟨fun _ _ _ _ _ _ => rfl, fun _ _ => rfl⟩

/-- C9: an I/O error from the writer while `generate_full_patch` emits the
literal bytes of a command (the `patch.write_all(..)` with no `?` on line
99) is silently discarded: with a writer whose third `write_all` call
fails, generation still returns `Ok`, the failing call did occur, and the
literal byte is missing from the produced patch. -/
theorem C9_write_error_dropped (mm : Nat) :
    generateF [] mm [9] ⟨[], 0, fun i => i == 2⟩
      = .ok ⟨Command.write_to ⟨0, 0, 1⟩, 3, fun i => i == 2⟩
    ∧ ((fun i => i == 2) (2 : Nat)) = true
    ∧ (9 : Nat) ∉ Command.write_to ⟨0, 0, 1⟩ := by
  refine ⟨?_, rfl, by decide⟩
  unfold generateF
  rw [matchPairs_nil mm [9] (by simp)]
  rfl

/-- C10 counterexample: on a premature end-of-stream (`read_size_from`
asked for 8 bytes of a stream holding only 4), the function does *not*
run forever: it terminates successfully (replaying the 4 buffered bytes),
refuting "neither function terminates". -/
theorem C10_counterexample :
    ([3, 4, 5, 6] : List Nat).length < 8
    ∧ read_size_from 10 8 (cursorR [3, 4, 5, 6])
        = some (.ok ([[3, 4, 5, 6], [3, 4, 5, 6]], ⟨[], fullSched, 1⟩)) :=
  ⟨by decide, rfl⟩

/-! ## C1: the round-trip property fails on literal runs longer than the
1024-byte buffer -/

/-- The `read_paired_bufs` with `size = 0` finishes immediately (helper). -/
theorem pairedRun_zero (fuel : Nat) (b0 b1 : List Nat) (r0 r1 : RState) (base : Nat) :
    pairedRun (fuel + 1) 0 b0 b1 r0 r1 base = some ([], r0, r1) := by
  rw [pairedRun]
  rfl

/-- The `read_size_from` with `size = 0` finishes immediately (helper). -/
theorem readSizeGo_zero (fuel : Nat) (buf : List Nat) (base : Nat) (r : RState) :
    readSizeGo (fuel + 1) 0 buf base r = some (.ok ([], r)) := by
  rw [readSizeGo]
  rfl

/-- Unfolding of one `read_size_from` iteration (`size ≠ 0`, `base = 0`),
with the conditional read abstracted by its outcome (helper). -/
theorem readSizeGo_succ (fuel size : Nat) (buf : List Nat) (r : RState)
    (hsz : size ≠ 0) (c : List Nat) (r' : RState)
    (hc : (if buf.length < min BUFCAP size then rread r (min BUFCAP size - buf.length)
           else ([], r)) = (c, r')) :
    readSizeGo (fuel + 1) size buf 0 r =
      if size < (buf ++ c).length then some .panicked
      else
        match readSizeGo fuel (size - (buf ++ c).length) (buf ++ c) 0 r' with
        | none => none
        | some .panicked => some .panicked
        | some .errored => some .errored
        | some (.ok (rest, ra)) => some (.ok ((buf ++ c) :: rest, ra)) := by
  rw [readSizeGo, if_neg hsz]
  dsimp only
  rw [hc]
  rfl

/-- Reading one command from a full-read stream beginning with 24 bytes
(helper, any call count). -/
theorem read_from_full (buf rest : List Nat) (k : Nat) (hb : buf.length = 24) :
    Command.read_from ⟨buf ++ rest, fullSched, k⟩
      = (some (Command.decode buf), ⟨rest, fullSched, k + 1⟩) := by
  have e1 : rread ⟨buf ++ rest, fullSched, k⟩ (24 - ([] : List Nat).length)
      = (buf, ⟨rest, fullSched, k + 1⟩) := by
    unfold rread
    dsimp only
    have hN : min (fullSched k) (min (24 - ([] : List Nat).length)
        (buf ++ rest).length) = 24 := by
      rw [show fullSched k = 1000000000 from rfl]
      rw [List.length_append, hb]
      simp only [List.length_nil, Nat.sub_zero]
      omega
    rw [hN, List.take_left' hb, List.drop_left' hb]
  unfold Command.read_from
  dsimp only
  rw [show (25 : Nat) = 24 + 1 from rfl]
  rw [readGo_succ 24 _ [] (by simp) _ _ e1]
  rw [if_neg (by omega)]
  rw [show (24 : Nat) = 23 + 1 from rfl]
  rw [Command.readGo, if_pos (by simp [hb])]
  simp only [List.nil_append, Option.map_some']

/-- The `Command::read_from` on a full-read stream with fewer than 24 bytes
left reports clean end-of-stream (helper). -/
theorem read_from_short (data : List Nat) (k : Nat) (hd : data.length < 24) :
    (Command.read_from ⟨data, fullSched, k⟩).1 = none := by
  have e1 : rread ⟨data, fullSched, k⟩ (24 - ([] : List Nat).length)
      = (data, ⟨[], fullSched, k + 1⟩) := by
    unfold rread
    dsimp only
    have hN : min (fullSched k) (min (24 - ([] : List Nat).length) data.length)
        = data.length := by
      rw [show fullSched k = 1000000000 from rfl]
      simp only [List.length_nil, Nat.sub_zero]
      omega
    rw [hN, List.take_length, List.drop_length]
  unfold Command.read_from
  dsimp only
  rw [show (25 : Nat) = 24 + 1 from rfl]
  rw [readGo_succ 24 _ [] (by simp) _ _ e1]
  by_cases h0 : data.length = 0
  · rw [if_pos h0]
    rfl
  · rw [if_neg h0]
    have e2 : rread ⟨[], fullSched, k + 1⟩ (24 - ([] ++ data).length)
        = ([], ⟨[], fullSched, k + 2⟩) := by
      unfold rread
      dsimp only
      simp
    rw [show (24 : Nat) = 23 + 1 from rfl]
    rw [readGo_succ 23 _ ([] ++ data) (by simp; omega) _ _ e2]
    rfl

/-- The `deLE` of an all-zero buffer is zero (helper). -/
theorem deLE_replicate_zero (k : Nat) : deLE (List.replicate k 0) = 0 := by
  induction k with
  | zero => rfl
  | succ k ih => simp [List.replicate_succ, deLE, ih]

/-- 24 zero bytes decode to the all-zero command (helper). -/
theorem decode_zeros : Command.decode (List.replicate 24 0) = ⟨0, 0, 0⟩ := by
  unfold Command.decode
  rw [List.take_replicate, List.drop_replicate, List.take_replicate,
    List.drop_replicate, List.take_replicate]
  rw [show (min 8 24 : Nat) = 8 from rfl, show (min 8 (24 - 8) : Nat) = 8 from rfl,
    show (min 8 (24 - 16) : Nat) = 8 from rfl]
  rw [deLE_replicate_zero]

/-- Reading a command out of a run of at least 24 zero bytes (helper). -/
theorem read_from_zeros (m k : Nat) (hm : 24 ≤ m) :
    Command.read_from ⟨List.replicate m 0, fullSched, k⟩
      = (some ⟨0, 0, 0⟩, ⟨List.replicate (m - 24) 0, fullSched, k + 1⟩) := by
  have hsplit : List.replicate m (0 : Nat)
      = List.replicate 24 0 ++ List.replicate (m - 24) 0 := by
    rw [← List.replicate_add]
    congr 1
    omega
  rw [hsplit, read_from_full _ _ _ (by simp), decode_zeros]

/-- Loop-exit unfolding of the `apply_patch` command loop (helper). -/
theorem applyPatchGo_done (fuel : Nat) (old : SeekR) (patch p2 : RState)
    (out : List Nat) (h : Command.read_from patch = (none, p2)) :
    applyPatchGo (fuel + 1) old patch out = some (.ok out) := by
  rw [applyPatchGo, h]

/-- Loop-step unfolding of the `apply_patch` command loop (helper). -/
theorem applyPatchGo_step (fuel : Nat) (old : SeekR) (patch p2 : RState)
    (out : List Nat) (c : Command) (h : Command.read_from patch = (some c, p2)) :
    applyPatchGo (fuel + 1) old patch out =
      match applyOneCmd (fuel + 1) c old p2 out with
      | none => none
      | some .panicked => some .panicked
      | some .errored => some .errored
      | some (.ok (old2, p3, out2)) => applyPatchGo fuel old2 p3 out2 := by
  rw [applyPatchGo, h]

/-- The all-zero command is a no-op for the linear applier (helper). -/
theorem applyOneCmd_zeros (fuel : Nat) (old : SeekR) (patch : RState) (out : List Nat) :
    applyOneCmd (fuel + 1) ⟨0, 0, 0⟩ old patch out
      = some (.ok (⟨old.data, 0, old.sched, old.calls⟩, patch, out)) := by
  unfold applyOneCmd
  dsimp only
  rw [pairedRun_zero]
  dsimp only
  rw [show read_size_from (fuel + 1) 0 patch = some (.ok ([], patch))
      from readSizeGo_zero fuel [] 0 patch]
  dsimp only
  simp [seekResync, seekView]

/-- Draining a trailing run of zero bytes: every garbage all-zero command
is applied as a no-op until the partial tail reads as end-of-stream
(helper). -/
theorem drainZeros (m : Nat) :
    ∀ (fuel : Nat), m + 1 ≤ fuel → ∀ (old : SeekR) (k : Nat) (out : List Nat),
      applyPatchGo fuel old ⟨List.replicate m 0, fullSched, k⟩ out = some (.ok out) := by
  induction m using Nat.strong_induction_on with
  | _ m ih =>
    intro fuel hfuel old k out
    obtain ⟨f, rfl⟩ : ∃ f, fuel = f + 1 := ⟨fuel - 1, by omega⟩
    by_cases hm : m < 24
    · cases hrf : Command.read_from ⟨List.replicate m 0, fullSched, k⟩ with
      | mk res p2 =>
        have hres : res = none := by
          have := read_from_short (List.replicate m 0) k (by simp [hm])
          rw [hrf] at this
          exact this
        subst hres
        exact applyPatchGo_done f old _ p2 out hrf
    · rw [applyPatchGo_step f old _ _ out ⟨0, 0, 0⟩ (read_from_zeros m k (by omega))]
      rw [applyOneCmd_zeros f old _ out]
      exact ih (m - 24) (by omega) f (by omega) _ (k + 1) out

/-- The failing `new` input: 1024 one-bytes then 1024 zero-bytes. -/
def c1new : List Nat := List.replicate 1024 1 ++ List.replicate 1024 0

/-- C1: the round trip `apply_patch (generate_full_patch (compute old) new) old
= new` FAILS.  With `old = []` the generator emits a single command with a
2048-byte literal run; applying it (with in-memory cursors, as the
repository's own round-trip test does) reproduces the first 1024 literal
bytes twice — `read_size_from`'s replay defect — and then misparses the
remaining 1024 literal bytes as trailing all-zero commands, returning
`Ok` with output `replicate 2048 1 ≠ new`, for every match threshold. -/
theorem C1_roundtrip_failure (mm : Nat) :
    apply_patch 3000 (generate_full_patch [] mm c1new) []
      = some (.ok (List.replicate 2048 1))
    ∧ List.replicate 2048 1 ≠ c1new := by
  have hA : (List.replicate 1024 (1 : Nat)).length = 1024 := List.length_replicate _ _
  have hlen : c1new.length = 2048 := by
    unfold c1new
    rw [List.length_append, List.length_replicate, List.length_replicate]
  have hne : c1new ≠ [] := by
    intro hcon
    rw [hcon] at hlen
    exact absurd hlen (by decide)
  constructor
  · have hpatch : generate_full_patch [] mm c1new
        = Command.write_to ⟨0, 0, 2048⟩ ++ c1new := by
      unfold generate_full_patch
      rw [matchPairs_nil mm c1new hne, hlen]
      unfold generateGo generateGo
      simp only [write_delta, List.drop_zero, List.take_zero, List.zipWith_nil_left,
        List.append_nil, Nat.add_zero, Nat.zero_add, List.append_assoc, List.nil_append]
      rw [List.take_of_length_le (le_of_eq hlen)]
    rw [hpatch]
    have hrf : Command.read_from (cursorR (Command.write_to ⟨0, 0, 2048⟩ ++ c1new))
        = (some ⟨0, 0, 2048⟩, ⟨c1new, fullSched, 1⟩) := by
      have hh := read_from_full (Command.write_to ⟨0, 0, 2048⟩) c1new 0 (write_to_length _)
      rw [decode_write_to _ (by norm_num) (by norm_num) (by norm_num)] at hh
      exact hh
    have hc1 : (if ([] : List Nat).length < min BUFCAP 2048
          then rread ⟨c1new, fullSched, 1⟩ (min BUFCAP 2048 - ([] : List Nat).length)
          else ([], ⟨c1new, fullSched, 1⟩))
        = (List.replicate 1024 1, ⟨List.replicate 1024 0, fullSched, 2⟩) := by
      rw [if_pos (by
        rw [List.length_nil, show min BUFCAP 2048 = 1024 from rfl]
        omega)]
      unfold rread
      dsimp only
      have hN : min (fullSched 1) (min (min BUFCAP 2048 - ([] : List Nat).length)
          c1new.length) = 1024 := by
        rw [show fullSched 1 = 1000000000 from rfl, hlen]
        simp only [List.length_nil, Nat.sub_zero, BUFCAP]
        omega
      rw [hN]
      unfold c1new
      rw [List.take_left' hA, List.drop_left' hA]
    have hc2 : (if (List.replicate 1024 (1 : Nat)).length < min BUFCAP 1024
          then rread ⟨List.replicate 1024 0, fullSched, 2⟩
            (min BUFCAP 1024 - (List.replicate 1024 (1 : Nat)).length)
          else ([], ⟨List.replicate 1024 0, fullSched, 2⟩))
        = ([], ⟨List.replicate 1024 0, fullSched, 2⟩) := by
      rw [if_neg (by
        rw [List.length_replicate, show min BUFCAP 1024 = 1024 from rfl]
        omega)]
    have hrsf : read_size_from (2999 + 1) 2048 ⟨c1new, fullSched, 1⟩
        = some (.ok ([List.replicate 1024 1, List.replicate 1024 1],
                     ⟨List.replicate 1024 0, fullSched, 2⟩)) := by
      show readSizeGo (2999 + 1) 2048 [] 0 ⟨c1new, fullSched, 1⟩ = _
      rw [readSizeGo_succ 2999 2048 [] _ (by norm_num) _ _ hc1]
      rw [if_neg (by rw [List.nil_append, List.length_replicate]; omega)]
      simp only [List.nil_append, List.length_replicate]
      rw [show (2048 - 1024 : Nat) = 1024 from rfl]
      rw [show (2999 : Nat) = 2998 + 1 from rfl]
      rw [readSizeGo_succ 2998 1024 (List.replicate 1024 1) _ (by norm_num) _ _ hc2]
      rw [if_neg (by rw [List.append_nil, List.length_replicate]; omega)]
      simp only [List.append_nil, List.length_replicate]
      rw [show (1024 - 1024 : Nat) = 0 from rfl]
      rw [show (2998 : Nat) = 2997 + 1 from rfl]
      rw [readSizeGo_zero]
    have hone : applyOneCmd (2999 + 1) ⟨0, 0, 2048⟩ (cursorS []) ⟨c1new, fullSched, 1⟩ []
        = some (.ok (⟨[], 0, fullSched, 0⟩, ⟨List.replicate 1024 0, fullSched, 2⟩,
                     List.replicate 2048 1)) := by
      unfold applyOneCmd
      dsimp only
      rw [pairedRun_zero]
      dsimp only
      rw [hrsf]
      dsimp only
      simp only [seekResync, seekView, cursorS, List.map_nil, List.flatten_nil,
        List.append_nil, List.nil_append, List.flatten_cons, List.drop_nil,
        List.length_nil, Nat.sub_self, Nat.add_zero]
      rw [← List.replicate_add]
    unfold apply_patch
    rw [show (3000 : Nat) = 2999 + 1 from rfl]
    rw [applyPatchGo_step 2999 _ _ _ [] ⟨0, 0, 2048⟩ hrf]
    rw [hone]
    exact drainZeros 1024 2999 (by norm_num) _ 2 (List.replicate 2048 1)
  · intro h
    have h2 : List.drop 1024 (List.replicate 2048 (1 : Nat)) = List.drop 1024 c1new := by
      rw [h]
    rw [List.drop_replicate] at h2
    unfold c1new at h2
    rw [List.drop_left' hA] at h2
    rw [show (2048 - 1024 : Nat) = 1023 + 1 from rfl] at h2
    rw [show (1024 : Nat) = 1023 + 1 from rfl] at h2
    rw [List.replicate_succ, List.replicate_succ] at h2
    injection h2 with hhead _
    exact absurd hhead (by decide)

/-! ## C10: termination behaviour of the two loops -/

/-- If the first stream persistently returns zero bytes, `read_paired_bufs`
never finishes while `size` is positive: every fuel bound is exhausted
(helper). -/
theorem pairedRun_zeroSched_none :
    ∀ (fuel size : Nat) (b1 : List Nat) (r0 r1 : RState),
      size ≠ 0 → r0.sched = (fun _ => 0) →
      pairedRun fuel size [] b1 r0 r1 0 = none := by
  intro fuel
  induction fuel with
  | zero => intro size b1 r0 r1 _ _; rfl
  | succ fuel ih =>
    intro size b1 r0 r1 hsz hsched
    obtain ⟨d0, s0, c0⟩ := r0
    have hs0 : s0 = fun _ => 0 := hsched
    subst hs0
    have hE0 : (if ([] : List Nat).length < min BUFCAP size
          then rread ⟨d0, (fun _ => 0), c0⟩ (min BUFCAP size - ([] : List Nat).length)
          else ([], ⟨d0, (fun _ => 0), c0⟩))
        = (([] : List Nat), ⟨d0, (fun _ => 0), c0 + 1⟩) := by
      rw [if_pos (by simp only [List.length_nil, BUFCAP]; omega)]
      unfold rread
      dsimp only
      rw [show min ((fun _ => (0 : Nat)) c0) (min (min BUFCAP size - ([] : List Nat).length)
          d0.length) = 0 from Nat.zero_min _]
      simp
    obtain ⟨C1, R1', hE1⟩ : ∃ C R,
        (if b1.length < min BUFCAP size
         then rread r1 (min BUFCAP size - b1.length) else ([], r1)) = (C, R) :=
      ⟨_, _, rfl⟩
    rw [pairedRun_succ fuel size [] b1 ⟨d0, (fun _ => 0), c0⟩ r1 hsz _ _ _ _ hE0 hE1]
    rw [show min (([] : List Nat) ++ ([] : List Nat)).length (b1 ++ C1).length = 0 from by
      simp]
    simp only [List.nil_append, List.drop_nil, List.drop_zero, Nat.sub_zero]
    rw [ih size (b1 ++ C1) ⟨d0, (fun _ => 0), c0 + 1⟩ R1' hsz rfl]

/-- The claim's liveness precondition: at any point in the schedule, some
later read call delivers at least one byte. -/
def live (s : Nat → Nat) : Prop := ∀ i, ∃ j, i ≤ j ∧ 1 ≤ s j

/-- Consuming a zero entry of a live schedule leaves the next positive
entry unchanged (helper). -/
theorem find_shift (s : Nat → Nat) (h : live s) (c : Nat) (hz : s c = 0) :
    Nat.find (h (c + 1)) = Nat.find (h c) := by
  have hspec := Nat.find_spec (h c)
  have hne : Nat.find (h c) ≠ c := by
    intro he
    rw [he] at hspec
    omega
  rw [Nat.find_eq_iff]
  refine ⟨⟨by omega, hspec.2⟩, ?_⟩
  intro m hm hcontra
  exact Nat.find_min (h c) hm ⟨by omega, hcontra.2⟩

/-- Outcome of one conditional buffer top-up, termination-oriented view
(helper): the reader state stays on the same schedule, lengths are
controlled, and a read that returns nothing despite an empty buffer can
only come from a zero schedule entry. -/
theorem readStep_cases (b d : List Nat) (s : Nat → Nat) (c : Nat) (size : Nat)
    (hsz : size ≠ 0) (hb : b.length ≤ size) (hd : size ≤ b.length + d.length) :
    ∃ (C : List Nat) (d' : List Nat) (c' : Nat),
      (if b.length < min BUFCAP size then rread ⟨d, s, c⟩ (min BUFCAP size - b.length)
       else ([], ⟨d, s, c⟩)) = (C, ⟨d', s, c'⟩)
      ∧ b.length + C.length ≤ size
      ∧ size ≤ (b ++ C).length + d'.length
      ∧ (b = [] → C = [] → s c = 0 ∧ c' = c + 1) := by
  have hBUF : BUFCAP = 1024 := rfl
  by_cases hr : b.length < min BUFCAP size
  · refine ⟨d.take (min (s c) (min (min BUFCAP size - b.length) d.length)),
            d.drop (min (s c) (min (min BUFCAP size - b.length) d.length)), c + 1,
            ?_, ?_, ?_, ?_⟩
    · rw [if_pos hr]
      rfl
    · rw [List.length_take]
      omega
    · rw [List.length_append, List.length_take, List.length_drop]
      omega
    · intro hbnil hCnil
      refine ⟨?_, rfl⟩
      have hlen0 : (d.take (min (s c) (min (min BUFCAP size - b.length)
          d.length))).length = 0 := by
        rw [hCnil]
        rfl
      rw [List.length_take] at hlen0
      have hb0 : b.length = 0 := by
        rw [hbnil]
        rfl
      omega
  · exact ⟨[], d, c, if_neg hr, by simpa using hb, by simpa using hd,
      fun hbnil _ => absurd (by
        rw [hbnil, List.length_nil]
        omega : b.length < min BUFCAP size) hr⟩

/-- Termination of `read_paired_bufs` under the liveness precondition
(helper): nested strong induction on the remaining size and on each
stream's distance to its next positive schedule entry. -/
theorem pairedRun_terminates_aux (s0 s1 : Nat → Nat) (h0 : live s0) (h1 : live s1) :
    ∀ (size n0 n1 : Nat) (b0 b1 d0 d1 : List Nat) (c0 c1 : Nat),
      b0.length ≤ size → b1.length ≤ size →
      size ≤ b0.length + d0.length → size ≤ b1.length + d1.length →
      (if b0 = [] then Nat.find (h0 c0) - c0 else 0) = n0 →
      (if b1 = [] then Nat.find (h1 c1) - c1 else 0) = n1 →
      ∃ fuel out, pairedRun fuel size b0 b1 ⟨d0, s0, c0⟩ ⟨d1, s1, c1⟩ 0 = some out := by
  intro size
  induction size using Nat.strong_induction_on with
  | _ size ihs =>
  intro n0
  induction n0 using Nat.strong_induction_on with
  | _ n0 ih0 =>
  intro n1
  induction n1 using Nat.strong_induction_on with
  | _ n1 ih1 =>
  intro b0 b1 d0 d1 c0 c1 hb0 hb1 hd0 hd1 hm0 hm1
  by_cases hsz : size = 0
  · subst hsz
    exact ⟨1, ([], ⟨d0, s0, c0⟩, ⟨d1, s1, c1⟩), pairedRun_zero 0 b0 b1 _ _ 0⟩
  obtain ⟨C0, d0', c0', hE0, hl0, hinv0, hz0⟩ :=
    readStep_cases b0 d0 s0 c0 size hsz hb0 hd0
  obtain ⟨C1, d1', c1', hE1, hl1, hinv1, hz1⟩ :=
    readStep_cases b1 d1 s1 c1 size hsz hb1 hd1
  have hL0 : (b0 ++ C0).length = b0.length + C0.length := List.length_append _ _
  have hL1 : (b1 ++ C1).length = b1.length + C1.length := List.length_append _ _
  have hnext : ∃ fuel out, pairedRun fuel
      (size - min (b0 ++ C0).length (b1 ++ C1).length)
      ((b0 ++ C0).drop (min (b0 ++ C0).length (b1 ++ C1).length))
      ((b1 ++ C1).drop (min (b0 ++ C0).length (b1 ++ C1).length))
      ⟨d0', s0, c0'⟩ ⟨d1', s1, c1'⟩ 0 = some out := by
    by_cases hpm : min (b0 ++ C0).length (b1 ++ C1).length = 0
    · rw [hpm]
      simp only [Nat.sub_zero, List.drop_zero]
      by_cases hB0 : b0 ++ C0 = []
      · have hb0nil : b0 = [] := by
          have := congrArg List.length hB0
          rw [hL0, List.length_nil] at this
          exact List.eq_nil_of_length_eq_zero (by omega)
        have hC0nil : C0 = [] := by
          have := congrArg List.length hB0
          rw [hL0, List.length_nil] at this
          exact List.eq_nil_of_length_eq_zero (by omega)
        obtain ⟨hs0z, hc0succ⟩ := hz0 hb0nil hC0nil
        subst hc0succ
        rw [if_pos hb0nil] at hm0
        have hspec := Nat.find_spec (h0 c0)
        have hne : Nat.find (h0 c0) ≠ c0 := by
          intro he
          rw [he] at hspec
          omega
        have hshift : Nat.find (h0 (c0 + 1)) = Nat.find (h0 c0) :=
          find_shift s0 h0 c0 hs0z
        refine ih0 (Nat.find (h0 (c0 + 1)) - (c0 + 1)) (by omega)
          (if b1 ++ C1 = [] then Nat.find (h1 c1') - c1' else 0)
          (b0 ++ C0) (b1 ++ C1) d0' d1' (c0 + 1) c1'
          (by omega) (by omega) (by omega) (by omega) ?_ rfl
        rw [if_pos hB0]
      · have hB1 : b1 ++ C1 = [] := by
          refine List.eq_nil_of_length_eq_zero ?_
          have hne0 : (b0 ++ C0).length ≠ 0 := by
            intro hh
            exact hB0 (List.eq_nil_of_length_eq_zero hh)
          omega
        have hb1nil : b1 = [] := by
          have := congrArg List.length hB1
          rw [hL1, List.length_nil] at this
          exact List.eq_nil_of_length_eq_zero (by omega)
        have hC1nil : C1 = [] := by
          have := congrArg List.length hB1
          rw [hL1, List.length_nil] at this
          exact List.eq_nil_of_length_eq_zero (by omega)
        obtain ⟨hs1z, hc1succ⟩ := hz1 hb1nil hC1nil
        subst hc1succ
        rw [if_pos hb1nil] at hm1
        have hspec := Nat.find_spec (h1 c1)
        have hne : Nat.find (h1 c1) ≠ c1 := by
          intro he
          rw [he] at hspec
          omega
        have hshift : Nat.find (h1 (c1 + 1)) = Nat.find (h1 c1) :=
          find_shift s1 h1 c1 hs1z
        by_cases hn0 : n0 = 0
        · subst hn0
          refine ih1 (Nat.find (h1 (c1 + 1)) - (c1 + 1)) (by omega)
            (b0 ++ C0) (b1 ++ C1) d0' d1' c0' (c1 + 1)
            (by omega) (by omega) (by omega) (by omega) ?_ ?_
          · rw [if_neg hB0]
          · rw [if_pos hB1]
        · refine ih0 0 (by omega)
            (if b1 ++ C1 = [] then Nat.find (h1 (c1 + 1)) - (c1 + 1) else 0)
            (b0 ++ C0) (b1 ++ C1) d0' d1' c0' (c1 + 1)
            (by omega) (by omega) (by omega) (by omega) ?_ rfl
          rw [if_neg hB0]
    · have hpm1 : 1 ≤ min (b0 ++ C0).length (b1 ++ C1).length :=
        Nat.pos_of_ne_zero hpm
      have hpmle0 : min (b0 ++ C0).length (b1 ++ C1).length ≤ (b0 ++ C0).length :=
        Nat.min_le_left _ _
      have hpmle1 : min (b0 ++ C0).length (b1 ++ C1).length ≤ (b1 ++ C1).length :=
        Nat.min_le_right _ _
      have hdl0 : ((b0 ++ C0).drop (min (b0 ++ C0).length (b1 ++ C1).length)).length
          = (b0 ++ C0).length - min (b0 ++ C0).length (b1 ++ C1).length :=
        List.length_drop _ _
      have hdl1 : ((b1 ++ C1).drop (min (b0 ++ C0).length (b1 ++ C1).length)).length
          = (b1 ++ C1).length - min (b0 ++ C0).length (b1 ++ C1).length :=
        List.length_drop _ _
      exact ihs (size - min (b0 ++ C0).length (b1 ++ C1).length) (by omega)
        (if (b0 ++ C0).drop (min (b0 ++ C0).length (b1 ++ C1).length) = []
         then Nat.find (h0 c0') - c0' else 0)
        (if (b1 ++ C1).drop (min (b0 ++ C0).length (b1 ++ C1).length) = []
         then Nat.find (h1 c1') - c1' else 0)
        _ _ d0' d1' c0' c1'
        (by omega) (by omega) (by omega) (by omega) rfl rfl
  obtain ⟨F, ⟨pairs, ra, rb⟩, hF⟩ := hnext
  refine ⟨F + 1,
    (((b0 ++ C0).take (min (b0 ++ C0).length (b1 ++ C1).length),
      (b1 ++ C1).take (min (b0 ++ C0).length (b1 ++ C1).length)) :: pairs, ra, rb), ?_⟩
  rw [pairedRun_succ F size b0 b1 ⟨d0, s0, c0⟩ ⟨d1, s1, c1⟩ hsz
    C0 ⟨d0', s0, c0'⟩ C1 ⟨d1', s1, c1'⟩ hE0 hE1]
  rw [hF]

/-- C10 (amended): `read_paired_bufs` terminates for every declared size
under the precondition that each stream, while declared bytes remain,
eventually returns at least one byte from some read call (and holds at
least `size` bytes), and it never terminates when a stream persistently
returns zero bytes before the size is consumed; `read_size_from`, by
contrast, does *not* share the second property — on a premature
end-of-stream it can terminate, returning success (its buffer-replay
defect), as the concrete 8-byte request over a 4-byte stream shows. -/
theorem C10_termination_behaviour :
    (∀ (s0 s1 : Nat → Nat), live s0 → live s1 →
      ∀ (size : Nat) (d0 d1 : List Nat) (c0 c1 : Nat),
        size ≤ d0.length → size ≤ d1.length →
        ∃ fuel out, pairedRun fuel size [] [] ⟨d0, s0, c0⟩ ⟨d1, s1, c1⟩ 0 = some out)
    ∧ (∀ (fuel size : Nat) (b1 : List Nat) (r0 r1 : RState),
        size ≠ 0 → r0.sched = (fun _ => 0) →
        pairedRun fuel size [] b1 r0 r1 0 = none)
    ∧ (([3, 4, 5, 6] : List Nat).length < 8
       ∧ read_size_from 10 8 (cursorR [3, 4, 5, 6])
           = some (.ok ([[3, 4, 5, 6], [3, 4, 5, 6]], ⟨[], fullSched, 1⟩))) := by
  refine ⟨?_, pairedRun_zeroSched_none, by decide, rfl⟩
  intro s0 s1 h0 h1 size d0 d1 c0 c1 hd0 hd1
  exact pairedRun_terminates_aux s0 s1 h0 h1 size
    (if ([] : List Nat) = [] then Nat.find (h0 c0) - c0 else 0)
    (if ([] : List Nat) = [] then Nat.find (h1 c1) - c1 else 0)
    [] [] d0 d1 c0 c1 (by simp) (by simp) (by simpa using hd0) (by simpa using hd1)
    rfl rfl

theorem C10_termination_behaviour_witness :
    (∃ fuel out,
      pairedRun fuel 2 [] [] ⟨[7, 8], fullSched, 0⟩ ⟨[9, 9], fullSched, 0⟩ 0 = some out)
    ∧ pairedRun 5 1 [] [] ⟨[1], (fun _ => 0), 0⟩ (cursorR [4]) 0 = none := by
  constructor
  · exact C10_termination_behaviour.1 fullSched fullSched
      (fun i => ⟨i, Nat.le_refl i, by norm_num [fullSched]⟩)
      (fun i => ⟨i, Nat.le_refl i, by norm_num [fullSched]⟩)
      2 [7, 8] [9, 9] 0 0 (by norm_num) (by norm_num)
  · exact C10_termination_behaviour.2.1 5 1 [] ⟨[1], (fun _ => 0), 0⟩ (cursorR [4])
      (by norm_num) rfl

end Bsdiff
